import Mathlib

/-!
Verification of the text-reconstruction pipeline of the Local-AI chat client:
the thinking-tag parser, the output sanitizer, the prompt template engine,
the inline Markdown span parser and the chat-title generator.  Strings are
modelled as `List Char`; the semantics of the JavaScript regular expressions
used by the source are unfolded into explicit scanning functions.
-/

namespace LocalAI

/-- Whitespace class used by JS `trim` and `\s` on the ASCII inputs this
repository manipulates. -/
def jsWs (c : Char) : Bool :=
  c = ' ' || c = '\t' || c = '\n' || c = '\r' || c = '\x0b' || c = '\x0c'

/-- Model of JS `String.prototype.trim`: drop leading and trailing whitespace. -/
def jsTrim (l : List Char) : List Char :=
  ((l.dropWhile jsWs).reverse.dropWhile jsWs).reverse

/-- Case-insensitive test that `cs` starts with the lowercase pattern `pat`. -/
def startsWithCI : List Char → List Char → Bool
  | [], _ => true
  | _ :: _, [] => false
  | p :: ps, c :: cs => (c.toLower == p) && startsWithCI ps cs

/-- Index of the first case-insensitive occurrence of `pat` in `l`
(the scan a JS global case-insensitive regex performs). -/
def findCI (pat : List Char) : List Char → Option Nat
  | [] => if startsWithCI pat [] then some 0 else none
  | c :: cs =>
    if startsWithCI pat (c :: cs) then some 0
    else (findCI pat cs).map (· + 1)

/-- The opening delimiter of a reasoning span. -/
def thinkOpen : List Char := "<think>".toList

/-- The closing delimiter of a reasoning span. -/
def thinkClose : List Char := "</think>".toList

/-- The scanning loop of `parseThinkingResponse` (src/utils/textSanitizer.ts):
the regex `<think>([\s\S]*?)(?:</think>|$)` applied globally and
case-insensitively.  Returns the main-response text (everything outside the
matched spans), the raw contents of the spans in order, and the `isThinking`
flag (set when a span is unclosed, or when a span closer is not literally
the lowercase `</think>`, mirroring the case-sensitive `includes` check of
the source).  `fuel` bounds the recursion; `fuel = r.length` always
suffices because every matched span consumes at least one character. -/
def thinkLoop : Nat → List Char → List Char × List (List Char) × Bool
  | 0, r => (r, [], false)
  | fuel + 1, r =>
    match findCI thinkOpen r with
    | none => (r, [], false)
    | some j =>
      let r1 := r.drop (j + 7)
      match findCI thinkClose r1 with
      | none => (r.take j, [r1], true)
      | some k =>
        let res := thinkLoop fuel (r1.drop (k + 8))
        (r.take j ++ res.1, r1.take k :: res.2.1,
          (!((r1.drop k).take 8 == thinkClose)) || res.2.2)

/-- Result record of the thinking parser. -/
structure ParsedResponse where
  thinking : List Char
  mainResponse : List Char
  isThinking : Bool
  raw : List Char
deriving DecidableEq, Repr

/-- JS `Array.prototype.join` with a separator. -/
def joinSep (sep : List Char) : List (List Char) → List Char
  | [] => []
  | [x] => x
  | x :: y :: xs => x ++ sep ++ joinSep sep (y :: xs)

/-- `parseThinkingResponse` from src/utils/textSanitizer.ts: extract all
`<think>` spans (closed or unclosed), join their trimmed non-empty contents
with blank lines, and keep everything outside the spans as the trimmed
main response. -/
def parseThinkingResponse (text : List Char) : ParsedResponse :=
  let res := thinkLoop text.length text
  let sections := (res.2.1.map jsTrim).filter (fun s => !s.isEmpty)
  { thinking := jsTrim (joinSep ['\n', '\n'] sections)
    mainResponse := jsTrim res.1
    isThinking := res.2.2
    raw := text }

/-- The scanning loop of `stripThinkingTags`: the regex
`<think>[\s\S]*?</think>` applied globally and case-insensitively, each
match replaced by the empty string.  A span that never closes is not a
match, so the text from its opening delimiter onward is left in place. -/
def stripLoop : Nat → List Char → List Char
  | 0, r => r
  | fuel + 1, r =>
    match findCI thinkOpen r with
    | none => r
    | some j =>
      let r1 := r.drop (j + 7)
      match findCI thinkClose r1 with
      | none => r
      | some k => r.take j ++ stripLoop fuel (r1.drop (k + 8))

/-- `stripThinkingTags` from src/utils/textSanitizer.ts. -/
def stripThinkingTags (t : List Char) : List Char :=
  jsTrim (stripLoop t.length t)

/-- True when the scan of `parseThinkingResponse` meets a `<think>` opener
with no matching closer anywhere after it. -/
def hasUnclosedThink : Nat → List Char → Bool
  | 0, _ => false
  | fuel + 1, r =>
    match findCI thinkOpen r with
    | none => false
    | some j =>
      let r1 := r.drop (j + 7)
      match findCI thinkClose r1 with
      | none => true
      | some k => hasUnclosedThink fuel (r1.drop (k + 8))

/-! ## Output sanitizer (src/utils/textSanitizer.ts, `sanitizeModelOutput`) -/

/-- The chat-template control tokens of `CHAT_TOKENS`, in source order. -/
def chatTokens : List (List Char) :=
  ["<|im_start|>".toList, "<|im_end|>".toList, "<|endoftext|>".toList,
   "<start_of_turn>".toList, "<end_of_turn>".toList, "<eos>".toList,
   "<|pad|>".toList, "<|sep|>".toList, "<|assistant|>".toList,
   "<|user|>".toList, "<|system|>".toList]

/-- Stage 1 of the sanitizer: the global case-insensitive replacement of
every chat-template token by the empty string (no two tokens can match at
the same position, so the alternation order is immaterial). -/
def stripChatTokens : Nat → List Char → List Char
  | 0, r => r
  | _ + 1, [] => []
  | fuel + 1, c :: cs =>
    match chatTokens.find? (fun tk => startsWithCI tk (c :: cs)) with
    | some tk => stripChatTokens fuel ((c :: cs).drop tk.length)
    | none => c :: stripChatTokens fuel cs

/-- The tag names of `REASONING_TAG_RE`, in alternation order. -/
def reasoningWords : List (List Char) :=
  ["analysis".toList, "reasoning".toList, "reflection".toList,
   "observation".toList, "step".toList, "scratchpad".toList,
   "internal".toList, "meta".toList]

/-- JS `\w`: ASCII letters, digits and underscore. -/
def isWordChar (c : Char) : Bool := c.isAlphanum || c = '_'

/-- Index of the first `>` character. -/
def findGtIdx : List Char → Option Nat
  | [] => none
  | c :: cs => if c = '>' then some 0 else (findGtIdx cs).map (· + 1)

/-- After a tag name, the regexes require a word boundary and then
`[^>]*>`: the next character must not be a word character and the match
then extends through the first `>`.  Returns the number of characters
consumed after the name. -/
def matchTagAfterName (rest : List Char) : Option Nat :=
  match rest with
  | [] => none
  | c :: _ => if isWordChar c then none else (findGtIdx rest).map (· + 1)

/-- A match of `REASONING_TAG_RE` starting at `cs` (its total length). -/
def matchReasoningTag (cs : List Char) : Option Nat :=
  match cs with
  | '<' :: '/' :: rest =>
    match reasoningWords.find? (fun w => startsWithCI w rest) with
    | none => none
    | some w => (matchTagAfterName (rest.drop w.length)).map (fun n => 2 + w.length + n)
  | '<' :: rest =>
    match reasoningWords.find? (fun w => startsWithCI w rest) with
    | none => none
    | some w => (matchTagAfterName (rest.drop w.length)).map (fun n => 1 + w.length + n)
  | _ => none

/-- Stage 2 of the sanitizer: global replacement of reasoning tags. -/
def stripReasoningTags : Nat → List Char → List Char
  | 0, r => r
  | _ + 1, [] => []
  | fuel + 1, c :: cs =>
    match matchReasoningTag (c :: cs) with
    | some n => stripReasoningTags fuel ((c :: cs).drop n)
    | none => c :: stripReasoningTags fuel cs

/-- A match of `HTML_TAG_RE` (`</?[a-z][a-z0-9]*\b[^>]*>`, case-insensitive)
starting at `cs`. -/
def matchHtmlTag (cs : List Char) : Option Nat :=
  match cs with
  | '<' :: '/' :: c :: rest =>
    if c.isAlpha then
      let run := (c :: rest).takeWhile Char.isAlphanum
      (matchTagAfterName ((c :: rest).drop run.length)).map (fun n => 2 + run.length + n)
    else none
  | '<' :: c :: rest =>
    if c.isAlpha then
      let run := (c :: rest).takeWhile Char.isAlphanum
      (matchTagAfterName ((c :: rest).drop run.length)).map (fun n => 1 + run.length + n)
    else none
  | _ => none

/-- Stage 3 of the sanitizer: global replacement of stray HTML tags. -/
def stripHtmlTags : Nat → List Char → List Char
  | 0, r => r
  | _ + 1, [] => []
  | fuel + 1, c :: cs =>
    match matchHtmlTag (c :: cs) with
    | some n => stripHtmlTags fuel ((c :: cs).drop n)
    | none => c :: stripHtmlTags fuel cs

/-- The role names of `ROLE_PREFIX_RE`, in alternation order. -/
def roleWords : List (List Char) :=
  ["assistant".toList, "model".toList, "user".toList, "system".toList]

/-- A match of `(assistant|model|user|system)\s*:\s*` starting at `cs`
(the anchored part of `ROLE_PREFIX_RE` after its `^`). -/
def matchRolePrefix (cs : List Char) : Option Nat :=
  match roleWords.find? (fun w => startsWithCI w cs) with
  | none => none
  | some w =>
    let r1 := cs.drop w.length
    let ws1 := r1.takeWhile jsWs
    match r1.drop ws1.length with
    | ':' :: r2 => some (w.length + ws1.length + 1 + (r2.takeWhile jsWs).length)
    | _ => none

/-- A line-terminator character (after which the `m` flag lets `^` match). -/
def isLineBreak (c : Char) : Bool := c = '\n' || c = '\r'

/-- Stage 4 of the sanitizer: `ROLE_PREFIX_RE` has flags `im` and no `g`, so
it removes the first role prefix found at the start of any line (the
multiline flag makes `^` match after every line terminator, not only at
position 0).  `atStart` records whether the current position is a line
start. -/
def stripRolePrefix : Nat → Bool → List Char → List Char
  | 0, _, r => r
  | _ + 1, _, [] => []
  | fuel + 1, atStart, c :: cs =>
    if atStart then
      match matchRolePrefix (c :: cs) with
      | some n => (c :: cs).drop n
      | none => c :: stripRolePrefix fuel (isLineBreak c) cs
    else
      c :: stripRolePrefix fuel (isLineBreak c) cs

/-- Stage 5a of the sanitizer: global replacement of `\n{3,}` by two
newlines (each maximal run of three or more newlines collapses to two). -/
def collapseNewlines : Nat → List Char → List Char
  | 0, r => r
  | _ + 1, [] => []
  | fuel + 1, c :: cs =>
    if c = '\n' then
      let run := (c :: cs).takeWhile (fun d => d = '\n')
      if 3 ≤ run.length then
        '\n' :: '\n' :: collapseNewlines fuel ((c :: cs).drop run.length)
      else
        run ++ collapseNewlines fuel ((c :: cs).drop run.length)
    else c :: collapseNewlines fuel cs

/-- `sanitizeModelOutput` from src/utils/textSanitizer.ts: the five-stage
pipeline (chat tokens, reasoning tags, HTML tags, role prefix, whitespace). -/
def sanitizeModelOutput (raw : List Char) : List Char :=
  if raw.isEmpty then []
  else
    let t1 := stripChatTokens raw.length raw
    let t2 := stripReasoningTags t1.length t1
    let t3 := stripHtmlTags t2.length t2
    let t4 := stripRolePrefix t3.length true t3
    jsTrim (collapseNewlines t4.length t4)

/-! ## Template engine (`buildPrompt` and its formatters) -/

/-- The chat templates of `ChatTemplate` in src/types/llm.ts. -/
inductive ChatTemplate
  | chatml
  | gemma
deriving DecidableEq, Repr

/-- A conversation message as the template engine consumes it: a role
string and a content string (the remaining fields of `Message` are not
read by the engine). -/
structure Message where
  role : List Char
  content : List Char
deriving DecidableEq, Repr

/-- The options record of `buildPrompt`; absent fields take the defaults of
the source (`CHAT_HISTORY_CONFIG.maxMessages` and the per-template system
prompt). -/
structure PromptOptions where
  maxMessages : Option Nat
  systemPrompt : Option (List Char)
  chatTemplate : Option ChatTemplate
deriving DecidableEq, Repr

/-- `CHAT_HISTORY_CONFIG.maxMessages` from src/services/llm/config.ts. -/
def chatHistoryMaxMessages : Nat := 10

/-- `CHATML_SYSTEM_PROMPT` (verbatim, including the trailing space on the
first line). -/
def chatmlSystemPrompt : List Char :=
  ("You are a helpful, accurate AI assistant. \n\nWhen solving complex problems or answering questions that benefit from reasoning:\n- Use <think>...</think> tags to show your step-by-step reasoning process\n- Keep thinking concise and focused (2-4 sentences maximum)\n- Always close the </think> tag before providing your final answer\n- Place your final answer outside the thinking tags\n\nFormat:\n<think>Brief reasoning here...</think>\nYour clear, direct answer here.\n\nFor simple questions, respond directly without thinking tags. Always pay close attention to the conversation history above.").toList

/-- `GEMMA_SYSTEM_PROMPT` (verbatim). -/
def gemmaSystemPrompt : List Char :=
  ("You are a helpful, accurate AI assistant. Keep answers concise and pay close attention to the conversation history.").toList

/-- JS `messages.slice(-n)`: the last `n` elements, except that
`slice(-0)` is `slice(0)` and keeps everything. -/
def sliceNeg (n : Nat) (l : List Message) : List Message :=
  if n = 0 then l else l.drop (l.length - n)

/-- The history window both formatters compute:
`messages.length > maxMessages ? messages.slice(-maxMessages) : messages`. -/
def recentWindow (maxMessages : Nat) (messages : List Message) : List Message :=
  if maxMessages < messages.length then sliceNeg maxMessages messages else messages

/-- `buildChatMLPrompt`: system header, one ChatML turn per retained
message, then the open assistant turn. -/
def buildChatMLPrompt (messages : List Message) (options : PromptOptions) : List Char :=
  let maxMessages := options.maxMessages.getD chatHistoryMaxMessages
  let systemPrompt := options.systemPrompt.getD chatmlSystemPrompt
  let recent := recentWindow maxMessages messages
  let header := "<|im_start|>system\n".toList ++ systemPrompt ++ "\n<|im_end|>\n".toList
  let body := recent.foldl
    (fun acc msg =>
      acc ++ "<|im_start|>".toList ++ msg.role ++ "\n".toList ++ msg.content
        ++ "\n<|im_end|>\n".toList)
    header
  body ++ "<|im_start|>assistant\n".toList

/-- The Gemma role remapping: `assistant` becomes `model`. -/
def gemmaRoleName (role : List Char) : List Char :=
  if role == "assistant".toList then "model".toList else role

/-- The message loop of `buildGemmaPrompt`.  The flag records whether the
system prompt has already been prepended into a user turn; the returned
flag is its final value. -/
def gemmaTurns (systemPrompt : List Char) : List Message → Bool → List Char × Bool
  | [], flag => ([], flag)
  | msg :: rest, flag =>
    let role := gemmaRoleName msg.role
    if role == "user".toList && !flag then
      let r := gemmaTurns systemPrompt rest true
      ("<start_of_turn>user\n".toList ++ systemPrompt ++ "\n\n".toList ++ msg.content
        ++ "<end_of_turn>\n".toList ++ r.1, r.2)
    else if role == "system".toList then
      gemmaTurns systemPrompt rest flag
    else
      let r := gemmaTurns systemPrompt rest flag
      ("<start_of_turn>".toList ++ role ++ "\n".toList ++ msg.content
        ++ "<end_of_turn>\n".toList ++ r.1, r.2)

/-- `buildGemmaPrompt`: Gemma turns, a synthesized user turn carrying the
system prompt when no user message was seen, then the open model turn. -/
def buildGemmaPrompt (messages : List Message) (options : PromptOptions) : List Char :=
  let maxMessages := options.maxMessages.getD chatHistoryMaxMessages
  let systemPrompt := options.systemPrompt.getD gemmaSystemPrompt
  let recent := recentWindow maxMessages messages
  let res := gemmaTurns systemPrompt recent false
  let withSys :=
    if res.2 then res.1
    else "<start_of_turn>user\n".toList ++ systemPrompt ++ "<end_of_turn>\n".toList ++ res.1
  withSys ++ "<start_of_turn>model\n".toList

/-- `buildPrompt`: dispatch on the chat template, defaulting to ChatML. -/
def buildPrompt (messages : List Message) (options : PromptOptions) : List Char :=
  match options.chatTemplate.getD ChatTemplate.chatml with
  | ChatTemplate.gemma => buildGemmaPrompt messages options
  | ChatTemplate.chatml => buildChatMLPrompt messages options

/-- One Gemma turn as the specification words it:
`<start_of_turn>ROLE\nCONTENT<end_of_turn>\n`. -/
def gemmaTurnSpec (role content : List Char) : List Char :=
  "<start_of_turn>".toList ++ role ++ "\n".toList ++ content ++ "<end_of_turn>\n".toList

/-- Modelled from the spec: render the kept (system-free) history, with the
system instruction prepended into the content of the first user turn as
`SYSTEM\n\nCONTENT`, and every other role remapped through
`gemmaRoleName`. -/
def specGemmaBody (systemPrompt : List Char) : List Message → List Char
  | [] => []
  | m :: rest =>
    if m.role == "user".toList then
      gemmaTurnSpec "user".toList (systemPrompt ++ "\n\n".toList ++ m.content)
        ++ (rest.map (fun x => gemmaTurnSpec (gemmaRoleName x.role) x.content)).flatten
    else
      gemmaTurnSpec (gemmaRoleName m.role) m.content ++ specGemmaBody systemPrompt rest

/-- Modelled from the spec (section 4.1, Gemma formatter): truncate to the
retained window, drop standalone system-role messages, remap assistant to
model, prepend the system instruction into the first user turn, synthesize
a user turn carrying only the system instruction when no user turn exists,
and finally open a `<start_of_turn>model\n` turn. -/
def gemmaPromptSpec (messages : List Message) (options : PromptOptions) : List Char :=
  let maxMessages := options.maxMessages.getD chatHistoryMaxMessages
  let systemPrompt := options.systemPrompt.getD gemmaSystemPrompt
  let recent := recentWindow maxMessages messages
  let kept := recent.filter (fun m => !(m.role == "system".toList))
  let body :=
    if kept.any (fun m => m.role == "user".toList) then
      specGemmaBody systemPrompt kept
    else
      gemmaTurnSpec "user".toList systemPrompt
        ++ (kept.map (fun x => gemmaTurnSpec (gemmaRoleName x.role) x.content)).flatten
  body ++ "<start_of_turn>model\n".toList

/-! ## Inline Markdown span parser (`parseInlineSpans`) -/

/-- The span kinds of `InlineSpan.type`. -/
inductive SpanType
  | text
  | bold
  | italic
  | boldItalic
  | codeInline
  | mathInline
deriving DecidableEq, Repr

/-- An inline span: a kind and its content with markers stripped. -/
structure InlineSpan where
  type : SpanType
  content : List Char
deriving DecidableEq, Repr

/-- The backtick character. -/
def btick : Char := Char.ofNat 96

/-- A character the JS dot matches (anything but a line terminator). -/
def isDotChar (c : Char) : Bool := !(c = '\n' || c = '\r')

/-- Lazy search for `close` after at least one dot-class content character:
the least `n ≥ 1` such that the first `n` characters are dot characters and
`close` starts right after them.  This is the backtracking behaviour of
`(.+?)` followed by a literal closer. -/
def findDotClose (close : List Char) : Nat → List Char → Option Nat
  | 0, _ => none
  | _ + 1, [] => none
  | fuel + 1, c :: cs =>
    if isDotChar c then
      if close.isPrefixOf cs then some 1
      else (findDotClose close fuel cs).map (· + 1)
    else none

/-- Alternative 1, `$([^$]+?)$`: a dollar, a non-empty run without dollars
(lazy, so up to the first closing dollar), a dollar. -/
def tryDollar (cs : List Char) : Option (InlineSpan × Nat) :=
  match cs with
  | c :: rest =>
    if c = '$' then
      let content := rest.takeWhile (fun d => !(d = '$'))
      if content.isEmpty then none
      else if content.length < rest.length then
        some (⟨SpanType.mathInline, content⟩, content.length + 2)
      else none
    else none
  | [] => none

/-- Alternative 2, a backtick-delimited inline code span. -/
def tryTick (cs : List Char) : Option (InlineSpan × Nat) :=
  match cs with
  | c :: rest =>
    if c = btick then
      let content := rest.takeWhile (fun d => !(d = btick))
      if content.isEmpty then none
      else if content.length < rest.length then
        some (⟨SpanType.codeInline, content⟩, content.length + 2)
      else none
    else none
  | [] => none

/-- Alternative 3, `***(.+?)***`. -/
def tryTriStars (cs : List Char) : Option (InlineSpan × Nat) :=
  if "***".toList.isPrefixOf cs then
    let r := cs.drop 3
    match findDotClose "***".toList r.length r with
    | some n => some (⟨SpanType.boldItalic, r.take n⟩, n + 6)
    | none => none
  else none

/-- Alternative 4, `**(.+?)**`. -/
def tryBold (cs : List Char) : Option (InlineSpan × Nat) :=
  if "**".toList.isPrefixOf cs then
    let r := cs.drop 2
    match findDotClose "**".toList r.length r with
    | some n => some (⟨SpanType.bold, r.take n⟩, n + 4)
    | none => none
  else none

/-- Alternative 5, `*([^*]+?)*`. -/
def tryItalic (cs : List Char) : Option (InlineSpan × Nat) :=
  match cs with
  | c :: rest =>
    if c = '*' then
      let content := rest.takeWhile (fun d => !(d = '*'))
      if content.isEmpty then none
      else if content.length < rest.length then
        some (⟨SpanType.italic, content⟩, content.length + 2)
      else none
    else none
  | [] => none

/-- The combined regex of `parseInlineSpans` tried at one position: the
alternatives in priority order.  Returns the produced span and the length
of the match. -/
def tryInlineAt (cs : List Char) : Option (InlineSpan × Nat) :=
  match tryDollar cs with
  | some v => some v
  | none =>
    match tryTick cs with
    | some v => some v
    | none =>
      match tryTriStars cs with
      | some v => some v
      | none =>
        match tryBold cs with
        | some v => some v
        | none => tryItalic cs

/-- Leftmost match of the combined regex: the plain text before the match,
the matched span, and the rest of the input after the match. -/
def findInline : Nat → List Char → Option (List Char × InlineSpan × List Char)
  | 0, _ => none
  | _ + 1, [] => none
  | fuel + 1, c :: cs =>
    match tryInlineAt (c :: cs) with
    | some (sp, len) => some ([], sp, (c :: cs).drop len)
    | none =>
      match findInline fuel cs with
      | some (pre, sp, rest) => some (c :: pre, sp, rest)
      | none => none

/-- The `exec` loop of `parseInlineSpans`: emit the text before each match,
the matched span, and finally the text after the last match. -/
def inlineLoop : Nat → List Char → List InlineSpan
  | 0, r => if r.isEmpty then [] else [⟨SpanType.text, r⟩]
  | fuel + 1, r =>
    match findInline r.length r with
    | none => if r.isEmpty then [] else [⟨SpanType.text, r⟩]
    | some (pre, sp, rest) =>
      (if pre.isEmpty then [sp] else [⟨SpanType.text, pre⟩, sp]) ++ inlineLoop fuel rest

/-- `parseInlineSpans` from the Markdown parser: empty input gives no
spans; otherwise the scan, with the whole line as a single text span when
nothing matched. -/
def parseInlineSpans (text : List Char) : List InlineSpan :=
  if text.isEmpty then []
  else if (inlineLoop text.length text).isEmpty then [⟨SpanType.text, text⟩]
  else inlineLoop text.length text

/-! ## Title generator (src/services/llm/titleGenerator.ts) -/

/-- The apostrophe character. -/
def apos : Char := Char.ofNat 39

/-- Match one alternative of `GREETING_PATTERNS` at the start of `cs`
(case-insensitively) and return the rest of the input.  The alternatives
share no matchable prefix, so at most one applies. -/
def matchGreetingCore (cs : List Char) : Option (List Char) :=
  if startsWithCI "hi".toList cs then some (cs.drop 2)
  else if startsWithCI "hello".toList cs then some (cs.drop 5)
  else if startsWithCI "hey".toList cs then some (cs.drop 3)
  else if startsWithCI "greetings".toList cs then some (cs.drop 9)
  else if startsWithCI "good".toList cs then
    let r := (cs.drop 4).dropWhile jsWs
    if startsWithCI "morning".toList r then some (r.drop 7)
    else if startsWithCI "afternoon".toList r then some (r.drop 9)
    else if startsWithCI "evening".toList r then some (r.drop 7)
    else none
  else if startsWithCI "howdy".toList cs then some (cs.drop 5)
  else if startsWithCI "yo".toList cs then some (cs.drop 2)
  else if startsWithCI "sup".toList cs then some (cs.drop 3)
  else if startsWithCI "what".toList cs then
    let r := cs.drop 4
    let r1 := if r.head? == some apos then r.tail else r
    if startsWithCI "s".toList r1 then
      let r2 := (r1.drop 1).dropWhile jsWs
      if startsWithCI "up".toList r2 then some (r2.drop 2) else none
    else none
  else none

/-- `isGreeting`: the trimmed text matches one greeting alternative followed
only by whitespace and closing punctuation (`[\s!?.]*$`). -/
def isGreeting (text : List Char) : Bool :=
  match matchGreetingCore (jsTrim text) with
  | some rest => rest.all (fun c => jsWs c || c = '!' || c = '?' || c = '.')
  | none => false

/-- `findSubstantiveUserMessage`: the first user message that is not a
greeting. -/
def findSubstantiveUserMessage : List Message → Option Message
  | [] => none
  | m :: rest =>
    if m.role == "user".toList && !isGreeting m.content then some m
    else findSubstantiveUserMessage rest

/-- JS `split(/\s+/)`: fields between maximal whitespace runs, with an
empty field at a boundary that starts or ends with whitespace, and a single
empty field for the empty string. -/
def jsSplitWs : Nat → List Char → List (List Char)
  | 0, l => [l]
  | fuel + 1, l =>
    if l.isEmpty then [[]]
    else
      let field := l.takeWhile (fun c => !jsWs c)
      let rest := l.drop field.length
      if rest.isEmpty then [field]
      else field :: jsSplitWs fuel (rest.dropWhile jsWs)

/-- The number of fields `title.split(/\s+/)` produces. -/
def countWsFields (l : List Char) : Nat :=
  (jsSplitWs l.length l).length

/-- Global replacement of the literal `pat` by the empty string. -/
def removeAllOcc (pat : List Char) : Nat → List Char → List Char
  | 0, l => l
  | _ + 1, [] => []
  | fuel + 1, c :: cs =>
    if pat.isPrefixOf (c :: cs) then removeAllOcc pat fuel ((c :: cs).drop pat.length)
    else c :: removeAllOcc pat fuel cs

/-- Replacement of `PAT[\s\S]*` by the empty string: cut the text at the
first occurrence of the literal `pat`. -/
def truncFrom (pat : List Char) : Nat → List Char → List Char
  | 0, l => l
  | _ + 1, [] => []
  | fuel + 1, c :: cs =>
    if pat.isPrefixOf (c :: cs) then []
    else c :: truncFrom pat fuel cs

/-- The characters removed by `replace(/["'`]/g, "")`. -/
def quoteChar (c : Char) : Bool := c = '"' || c = apos || c = btick

/-- The characters of the trailing-punctuation class `[.!?:]`. -/
def punctTrail (c : Char) : Bool := c = '.' || c = '!' || c = '?' || c = ':'

/-- The label words of the `^(title|topic|subject)\s*:\s*` prefix strip. -/
def titleLabelWords : List (List Char) :=
  ["title".toList, "topic".toList, "subject".toList]

/-- Strip a leading `title:` / `topic:` / `subject:` label (anchored at the
very start, case-insensitive). -/
def stripTitleLabel (l : List Char) : List Char :=
  match titleLabelWords.find? (fun w => startsWithCI w l) with
  | none => l
  | some w =>
    let r1 := (l.drop w.length).dropWhile jsWs
    match r1 with
    | ':' :: r2 => r2.dropWhile jsWs
    | _ => l

/-- The clean-up pipeline `generateChatTitle` applies to the raw model
output: drop `<|im_end|>` tokens, cut at any `<|im_start|>`, drop quotes
and backticks, strip trailing punctuation, strip a leaked label, trim, keep
the first line, clip to 40 characters. -/
def cleanTitle (raw : List Char) : List Char :=
  let t1 := removeAllOcc "<|im_end|>".toList raw.length raw
  let t2 := truncFrom "<|im_start|>".toList t1.length t1
  let t3 := t2.filter (fun c => !quoteChar c)
  let t4 := (t3.reverse.dropWhile punctTrail).reverse
  let t5 := stripTitleLabel t4
  ((jsTrim t5).takeWhile (fun c => !(c = '\n'))).take 40

/-- JS `charAt(0).toUpperCase() + slice(1)`. -/
def capitalise (s : List Char) : List Char :=
  match s with
  | [] => []
  | c :: cs => c.toUpper :: cs

/-- `generateFallbackTitle`: the first words of the first substantive user
message (first five, clipped at 40 characters with an ellipsis), or the
first four words of the first user message when only greetings exist, or
the sentinel. -/
def generateFallbackTitle (messages : List Message) : List Char :=
  match findSubstantiveUserMessage messages with
  | none =>
    match messages.find? (fun m => m.role == "user".toList) with
    | some first =>
      let c := jsTrim first.content
      capitalise (joinSep [' '] ((jsSplitWs c.length c).take 4))
    | none => "New Chat".toList
  | some substantive =>
    let c := jsTrim substantive.content
    let title := joinSep [' '] ((jsSplitWs c.length c).take 5)
    capitalise (if 40 < title.length then title.take 37 ++ [Char.ofNat 8230] else title)

/-- `generateChatTitle`, with the model runtime abstracted into two inputs:
whether `llmService.isReady()` holds and the raw text the model streamed
back.  The early returns, the clean-up pipeline and the validation gate
(`!title || title.length < 2 || title.split(/\s+/).length > 10`) follow the
source. -/
def generateChatTitle (messages : List Message) (llmReady : Bool)
    (rawOut : List Char) : List Char :=
  if messages.isEmpty then "New Chat".toList
  else
    match findSubstantiveUserMessage messages with
    | none => "New Chat".toList
    | some _ =>
      if !llmReady then generateFallbackTitle messages
      else
        let title := cleanTitle rawOut
        if title.isEmpty || title.length < 2 || 10 < countWsFields title then
          generateFallbackTitle messages
        else title

/-- `cs` ends with a case-insensitive occurrence of `pat`. -/
def ciSuffix (pat cs : List Char) : Bool :=
  decide (pat.length ≤ cs.length)
    && startsWithCI pat (cs.drop (cs.length - pat.length))

/-- The text ends with a non-empty proper prefix of the opening delimiter
`<think>` (case-insensitively): the mid-stream situation in which the
characters that follow may complete the delimiter. -/
def danglingThinkOpen (cs : List Char) : Bool :=
  (List.range 6).any (fun n => ciSuffix (thinkOpen.take (n + 1)) cs)

/-! ## Theorems for the claims -/

/-- C2: `parseThinkingResponse` on the unterminated input
`"<think>reasoning so far"` reports thinking in progress, the thinking text
`"reasoning so far"`, and an empty main response. -/
theorem c2_unterminated_think :
    (parseThinkingResponse "<think>reasoning so far".toList).isThinking = true ∧
    (parseThinkingResponse "<think>reasoning so far".toList).thinking
      = "reasoning so far".toList ∧
    (parseThinkingResponse "<think>reasoning so far".toList).mainResponse = [] := by
  decide

/-- C1 (counterexample): the prefix `"<t"` of `"<think>x"` has the non-empty
main response `"<t"`, but the main response of the full string is empty, so
the claimed prefix-monotonicity fails as stated. -/
theorem c1_counterexample :
    "<t".toList <+: "<think>x".toList ∧
    (parseThinkingResponse "<t".toList).mainResponse ≠ [] ∧
    ¬ ((parseThinkingResponse "<t".toList).mainResponse
        <+: (parseThinkingResponse "<think>x".toList).mainResponse) := by
  decide

/-- C3 (counterexample): `sanitizeModelOutput` does not reduce
`"<|im_start|>assistant\nHello<|im_end|>"` to `"Hello"`, because the
role-prefix pattern requires a colon and `"assistant\nHello"` has none. -/
theorem c3_counterexample :
    sanitizeModelOutput "<|im_start|>assistant\nHello<|im_end|>".toList
      ≠ "Hello".toList := by
  decide

/-- C3 (amended): on that input the sanitizer removes exactly the two chat
tokens and returns `"assistant\nHello"`. -/
theorem c3_amended :
    sanitizeModelOutput "<|im_start|>assistant\nHello<|im_end|>".toList
      = "assistant\nHello".toList := by
  decide

/-- C8: the role-prefix stage runs with the multiline flag, so the first
role prefix at the start of any line is removed, not only one at the very
start of the text: `"Hi\nassistant: yes"` becomes `"Hi\nyes"`, although no
role prefix occurs at position 0. -/
theorem c8_multiline_role_strip :
    sanitizeModelOutput "Hi\nassistant: yes".toList = "Hi\nyes".toList := by
  decide

/-- C7: the literal ChatML example of the specification. -/
theorem c7_chatml_literal :
    buildPrompt [⟨"user".toList, "Hi".toList⟩]
        ⟨none, some "SYS".toList, some ChatTemplate.chatml⟩
      = ("<|im_start|>system\nSYS\n<|im_end|>\n<|im_start|>user\nHi\n<|im_end|>\n<|im_start|>assistant\n").toList := by
  decide

/-- C9: on `"***x*** **y** *z*"` the inline parser produces exactly three
non-text spans: bold-italic `x`, bold `y`, italic `z`, in that order. -/
theorem c9_precedence :
    (parseInlineSpans "***x*** **y** *z*".toList).filter
        (fun sp => !(sp.type == SpanType.text))
      = [⟨SpanType.boldItalic, "x".toList⟩, ⟨SpanType.bold, "y".toList⟩,
         ⟨SpanType.italic, "z".toList⟩] := by
  decide

/-- C4 (counterexample): on the unterminated input `"<think>a"`,
`stripThinkingTags` keeps the text (its regex only removes closed spans)
while `parseThinkingResponse` moves it into the thinking segment, so the
two functions differ. -/
theorem c4_counterexample :
    stripThinkingTags "<think>a".toList
      ≠ (parseThinkingResponse "<think>a".toList).mainResponse := by
  decide

/-- C5 (counterexample): with the substantive history
`[user "explain photosynthesis to me"]` and model output
`"Photosynthesis"`, the cleaned candidate has a single word, yet
`generateChatTitle` accepts it instead of returning the fallback: the
2-to-3-word gate of the claim does not exist in the code. -/
theorem c5_counterexample :
    countWsFields (cleanTitle "Photosynthesis".toList) = 1 ∧
    generateChatTitle [⟨"user".toList, "explain photosynthesis to me".toList⟩]
        true "Photosynthesis".toList = "Photosynthesis".toList ∧
    generateFallbackTitle [⟨"user".toList, "explain photosynthesis to me".toList⟩]
      ≠ "Photosynthesis".toList := by
  decide

/-- When no unclosed `<think>` span occurs, the strip loop and the main
component of the parse loop agree: both remove exactly the closed spans. -/
theorem stripLoop_eq_thinkLoop :
    ∀ fuel r, hasUnclosedThink fuel r = false →
      stripLoop fuel r = (thinkLoop fuel r).1 := by
  intro fuel
  induction fuel with
  | zero => intro r _; rfl
  | succ n ih =>
    intro r h
    simp only [stripLoop, thinkLoop, hasUnclosedThink] at *
    cases ho : findCI thinkOpen r with
    | none => simp [ho]
    | some j =>
      simp only [ho] at h ⊢
      cases hc : findCI thinkClose (r.drop (j + 7)) with
      | none => simp [hc] at h
      | some k =>
        simp only [hc] at h ⊢
        rw [ih _ h]

/-- C4 (amended): on every input without an unclosed `<think>` span,
`stripThinkingTags` agrees with `parseThinkingResponse(...).mainResponse`;
on an unclosed span the two differ (see the counterexample). -/
theorem c4_amended (t : List Char)
    (h : hasUnclosedThink t.length t = false) :
    stripThinkingTags t = (parseThinkingResponse t).mainResponse := by
  show jsTrim (stripLoop t.length t) = jsTrim (thinkLoop t.length t).1
  rw [stripLoop_eq_thinkLoop _ _ h]

/-- Witness for C4 (amended) at a concrete closed-span input. -/
theorem c4_amended_witness :
    stripThinkingTags "a<think>b</think>c".toList
      = (parseThinkingResponse "a<think>b</think>c".toList).mainResponse :=
  c4_amended "a<think>b</think>c".toList (by decide)

/-- A successful lazy closer search consumes at least one character of a
non-empty input. -/
theorem findDotClose_pos :
    ∀ close fuel r n, findDotClose close fuel r = some n → 1 ≤ n ∧ r ≠ [] := by
  intro close fuel
  induction fuel with
  | zero => intro r n h; simp [findDotClose] at h
  | succ m ih =>
    intro r n h
    cases r with
    | nil => simp [findDotClose] at h
    | cons c cs =>
      simp only [findDotClose] at h
      split at h
      · split at h
        · simp_all
        · simp only [Option.map_eq_some'] at h
          obtain ⟨a, _, rfl⟩ := h
          exact ⟨by omega, by simp⟩
      · exact absurd h (by simp)

/-- The dollar alternative only matches with non-empty content. -/
theorem tryDollar_content (cs : List Char) (sp : InlineSpan) (len : Nat)
    (h : tryDollar cs = some (sp, len)) : sp.content ≠ [] := by
  cases cs with
  | nil => simp [tryDollar] at h
  | cons c rest =>
    simp only [tryDollar] at h
    split at h
    · split at h
      · exact absurd h (by simp)
      · split at h
        · simp only [Option.some.injEq, Prod.mk.injEq] at h
          obtain ⟨rfl, -⟩ := h
          simp only [ne_eq, ← List.isEmpty_iff]
          simp_all
        · exact absurd h (by simp)
    · exact absurd h (by simp)

/-- The backtick alternative only matches with non-empty content. -/
theorem tryTick_content (cs : List Char) (sp : InlineSpan) (len : Nat)
    (h : tryTick cs = some (sp, len)) : sp.content ≠ [] := by
  cases cs with
  | nil => simp [tryTick] at h
  | cons c rest =>
    simp only [tryTick] at h
    split at h
    · split at h
      · exact absurd h (by simp)
      · split at h
        · simp only [Option.some.injEq, Prod.mk.injEq] at h
          obtain ⟨rfl, -⟩ := h
          simp only [ne_eq, ← List.isEmpty_iff]
          simp_all
        · exact absurd h (by simp)
    · exact absurd h (by simp)

/-- The italic alternative only matches with non-empty content. -/
theorem tryItalic_content (cs : List Char) (sp : InlineSpan) (len : Nat)
    (h : tryItalic cs = some (sp, len)) : sp.content ≠ [] := by
  cases cs with
  | nil => simp [tryItalic] at h
  | cons c rest =>
    simp only [tryItalic] at h
    split at h
    · split at h
      · exact absurd h (by simp)
      · split at h
        · simp only [Option.some.injEq, Prod.mk.injEq] at h
          obtain ⟨rfl, -⟩ := h
          simp only [ne_eq, ← List.isEmpty_iff]
          simp_all
        · exact absurd h (by simp)
    · exact absurd h (by simp)

/-- The bold-italic alternative only matches with non-empty content. -/
theorem tryTriStars_content (cs : List Char) (sp : InlineSpan) (len : Nat)
    (h : tryTriStars cs = some (sp, len)) : sp.content ≠ [] := by
  simp only [tryTriStars] at h
  split at h
  · split at h
    · rename_i n hfc
      simp only [Option.some.injEq, Prod.mk.injEq] at h
      obtain ⟨rfl, -⟩ := h
      obtain ⟨h1, h2⟩ := findDotClose_pos _ _ _ _ hfc
      simp only [ne_eq, List.take_eq_nil_iff]
      push_neg
      exact ⟨by omega, h2⟩
    · exact absurd h (by simp)
  · exact absurd h (by simp)

/-- The bold alternative only matches with non-empty content. -/
theorem tryBold_content (cs : List Char) (sp : InlineSpan) (len : Nat)
    (h : tryBold cs = some (sp, len)) : sp.content ≠ [] := by
  simp only [tryBold] at h
  split at h
  · split at h
    · rename_i n hfc
      simp only [Option.some.injEq, Prod.mk.injEq] at h
      obtain ⟨rfl, -⟩ := h
      obtain ⟨h1, h2⟩ := findDotClose_pos _ _ _ _ hfc
      simp only [ne_eq, List.take_eq_nil_iff]
      push_neg
      exact ⟨by omega, h2⟩
    · exact absurd h (by simp)
  · exact absurd h (by simp)

/-- Every span the combined inline regex matches carries non-empty
content. -/
theorem tryInlineAt_content (cs : List Char) (sp : InlineSpan) (len : Nat)
    (h : tryInlineAt cs = some (sp, len)) : sp.content ≠ [] := by
  unfold tryInlineAt at h
  cases hd : tryDollar cs with
  | some v =>
    rw [hd] at h
    injection h with h
    exact tryDollar_content cs sp len (h ▸ hd)
  | none =>
    rw [hd] at h
    cases ht : tryTick cs with
    | some v =>
      rw [ht] at h
      injection h with h
      exact tryTick_content cs sp len (h ▸ ht)
    | none =>
      rw [ht] at h
      cases h3 : tryTriStars cs with
      | some v =>
        rw [h3] at h
        injection h with h
        exact tryTriStars_content cs sp len (h ▸ h3)
      | none =>
        rw [h3] at h
        cases h4 : tryBold cs with
        | some v =>
          rw [h4] at h
          injection h with h
          exact tryBold_content cs sp len (h ▸ h4)
        | none =>
          rw [h4] at h
          exact tryItalic_content cs sp len h

/-- A list whose `isEmpty` test fails is not the empty list. -/
theorem ne_nil_of_not_isEmpty {α : Type} {l : List α}
    (h : ¬ l.isEmpty = true) : l ≠ [] := by
  cases l with
  | nil => simp at h
  | cons a as => simp

/-- A leftmost match consists of a span with non-empty content. -/
theorem findInline_content :
    ∀ fuel r pre sp rest, findInline fuel r = some (pre, sp, rest) →
      sp.content ≠ [] := by
  intro fuel
  induction fuel with
  | zero => intro r pre sp rest h; simp [findInline] at h
  | succ m ih =>
    intro r pre sp rest h
    cases r with
    | nil => simp [findInline] at h
    | cons c cs =>
      simp only [findInline] at h
      cases ht : tryInlineAt (c :: cs) with
      | some v =>
        obtain ⟨sp0, len0⟩ := v
        rw [ht] at h
        simp only [Option.some.injEq, Prod.mk.injEq] at h
        obtain ⟨-, rfl, -⟩ := h
        exact tryInlineAt_content (c :: cs) sp0 len0 ht
      | none =>
        rw [ht] at h
        cases hf : findInline m cs with
        | none => rw [hf] at h; exact absurd h (by simp)
        | some w =>
          rw [hf] at h
          obtain ⟨pre', sp', rest'⟩ := w
          simp only [Option.some.injEq, Prod.mk.injEq] at h
          obtain ⟨-, rfl, -⟩ := h
          exact ih cs pre' sp' rest' hf

/-- Every span the inline scan loop emits has non-empty content. -/
theorem inlineLoop_content :
    ∀ fuel r sp, sp ∈ inlineLoop fuel r → sp.content ≠ [] := by
  intro fuel
  induction fuel with
  | zero =>
    intro r sp hmem
    simp only [inlineLoop] at hmem
    split at hmem
    · simp at hmem
    · rename_i hr
      simp only [List.mem_singleton] at hmem
      subst hmem
      exact ne_nil_of_not_isEmpty hr
  | succ m ih =>
    intro r sp hmem
    simp only [inlineLoop] at hmem
    cases hf : findInline r.length r with
    | none =>
      rw [hf] at hmem
      by_cases hr : r.isEmpty = true
      · simp [hr] at hmem
      · simp only [if_neg hr, List.mem_singleton] at hmem
        subst hmem
        exact ne_nil_of_not_isEmpty hr
    | some w =>
      rw [hf] at hmem
      obtain ⟨pre, sp', rest⟩ := w
      simp only [List.mem_append] at hmem
      rcases hmem with hmem | hmem
      · split at hmem
        · simp only [List.mem_singleton] at hmem
          subst hmem
          exact findInline_content _ _ _ _ _ hf
        · rename_i hpre
          simp only [List.mem_cons, List.not_mem_nil, or_false] at hmem
          rcases hmem with rfl | rfl
          · exact ne_nil_of_not_isEmpty hpre
          · exact findInline_content _ _ _ _ _ hf
      · exact ih rest sp hmem

/-- C10: the inline parser never emits an empty span, and a non-empty line
never parses to an empty span list. -/
theorem c10_spans_nonempty (text : List Char) :
    (∀ sp ∈ parseInlineSpans text, sp.content ≠ []) ∧
    (text ≠ [] → parseInlineSpans text ≠ []) := by
  constructor
  · intro sp hmem
    unfold parseInlineSpans at hmem
    split at hmem
    · simp at hmem
    · rename_i htext
      split at hmem
      · simp only [List.mem_singleton] at hmem
        subst hmem
        exact ne_nil_of_not_isEmpty htext
      · exact inlineLoop_content _ _ _ hmem
  · intro htext
    unfold parseInlineSpans
    split
    · rename_i he
      simp only [List.isEmpty_iff] at he
      exact absurd he htext
    · split
      · simp
      · rename_i hspans
        exact ne_nil_of_not_isEmpty hspans

/-- Witness for C10 at a concrete non-empty input. -/
theorem c10_spans_nonempty_witness :
    parseInlineSpans "ab".toList ≠ [] :=
  (c10_spans_nonempty "ab".toList).2 (by decide)

/-- C5 (amended): the gate `generateChatTitle` actually applies rejects a
cleaned candidate that is empty, shorter than two characters, or split by
whitespace into more than ten fields, and then returns
`generateFallbackTitle` (the first five whitespace-separated words of the
first substantive user message, capitalised, clipped with an ellipsis over
40 characters); candidates of one word or of four to ten words are
accepted. -/
theorem c5_amended (messages : List Message) (raw : List Char)
    (hne : messages.isEmpty = false)
    (hsub : (findSubstantiveUserMessage messages).isSome = true)
    (hrej : (cleanTitle raw).length < 2 ∨ 10 < countWsFields (cleanTitle raw)) :
    generateChatTitle messages true raw = generateFallbackTitle messages := by
  unfold generateChatTitle
  rw [hne]
  obtain ⟨m, hm⟩ := Option.isSome_iff_exists.mp hsub
  rw [hm]
  simp only [Bool.not_true, Bool.false_eq_true, if_false]
  have hcond : ((cleanTitle raw).isEmpty || decide ((cleanTitle raw).length < 2)
      || decide (10 < countWsFields (cleanTitle raw))) = true := by
    rcases hrej with h | h
    · simp [h]
    · simp [h]
  simp only [hcond, if_true]

/-- Witness for C5 (amended): a one-character candidate is rejected and the
fallback title of the substantive message is returned. -/
theorem c5_amended_witness :
    generateChatTitle [⟨"user".toList, "explain photosynthesis to me".toList⟩]
        true "A".toList
      = generateFallbackTitle
          [⟨"user".toList, "explain photosynthesis to me".toList⟩] :=
  c5_amended [⟨"user".toList, "explain photosynthesis to me".toList⟩]
    "A".toList (by decide) (by decide) (Or.inl (by decide))

/-- Remapping never produces the role `user` unless the role was `user`. -/
theorem gemmaRoleName_user (r : List Char) :
    (gemmaRoleName r == "user".toList) = (r == "user".toList) := by
  unfold gemmaRoleName
  split
  · rename_i h
    rw [beq_iff_eq] at h
    rw [h]
    decide
  · rfl

/-- Remapping never produces the role `system` unless the role was
`system`. -/
theorem gemmaRoleName_system (r : List Char) :
    (gemmaRoleName r == "system".toList) = (r == "system".toList) := by
  unfold gemmaRoleName
  split
  · rename_i h
    rw [beq_iff_eq] at h
    rw [h]
    decide
  · rfl

/-- The literal opening of the synthesized Gemma user turn decomposes into
the pieces `gemmaTurnSpec` uses. -/
theorem sotUserLit :
    ("<start_of_turn>user\n".toList : List Char)
      = "<start_of_turn>".toList ++ ("user".toList ++ "\n".toList) := by
  decide

/-- The final flag of the Gemma loop records whether a user message
occurred (or the flag was set on entry). -/
theorem gemmaTurns_snd (sys : List Char) :
    ∀ (msgs : List Message) (flag : Bool),
      (gemmaTurns sys msgs flag).2
        = (flag || msgs.any (fun m => m.role == "user".toList)) := by
  intro msgs
  induction msgs with
  | nil => intro flag; cases flag <;> simp [gemmaTurns]
  | cons m rest ih =>
    intro flag
    simp only [gemmaTurns, List.any_cons]
    cases hu : (gemmaRoleName m.role == "user".toList) with
    | true =>
      have hmr : m.role = "user".toList := by
        have := gemmaRoleName_user m.role
        rw [hu] at this
        exact (beq_iff_eq.mp this.symm)
      have hgr : gemmaRoleName m.role = "user".toList := beq_iff_eq.mp hu
      have hsP : ¬ (gemmaRoleName m.role = "system".toList) := by
        rw [hgr]
        decide
      cases flag with
      | false => simp +decide [hmr, gemmaRoleName, ih]
      | true => simp +decide [hmr, gemmaRoleName, ih]
    | false =>
      have huP : ¬ (gemmaRoleName m.role = "user".toList) := by
        intro hh
        rw [hh] at hu
        simp at hu
      have hmrP : ¬ (m.role = "user".toList) := by
        intro hh
        have := gemmaRoleName_user m.role
        rw [hu, hh] at this
        simp at this
      have hmrB : (m.role == ['u', 's', 'e', 'r']) = false := by
        have h0 : ("user".toList : List Char) = ['u', 's', 'e', 'r'] := by decide
        rw [← h0]
        exact (gemmaRoleName_user m.role).symm.trans hu
      cases hs : (gemmaRoleName m.role == "system".toList) with
      | true =>
        have hsP : gemmaRoleName m.role = "system".toList := beq_iff_eq.mp hs
        simp [hu, huP, hs, hsP, hmrB, ih]
      | false =>
        have hsP : ¬ (gemmaRoleName m.role = "system".toList) := by
          intro hh
          rw [hh] at hs
          simp at hs
        simp [hu, huP, hs, hsP, hmrB, ih]

/-- The text of the Gemma loop: with the flag set, the plain rendering of
the retained non-system messages; with it cleared, the spec rendering that
injects the system prompt into the first user turn. -/
theorem gemmaTurns_fst (sys : List Char) :
    ∀ (msgs : List Message) (flag : Bool),
      (gemmaTurns sys msgs flag).1
        = (if flag
            then ((msgs.filter (fun m => !(m.role == "system".toList))).map
                (fun x => gemmaTurnSpec (gemmaRoleName x.role) x.content)).flatten
            else specGemmaBody sys
                (msgs.filter (fun m => !(m.role == "system".toList)))) := by
  intro msgs
  induction msgs with
  | nil => intro flag; cases flag <;> simp [gemmaTurns, specGemmaBody]
  | cons m rest ih =>
    intro flag
    have h0u : ("user".toList : List Char) = ['u', 's', 'e', 'r'] := by decide
    have h0s : ("system".toList : List Char)
        = ['s', 'y', 's', 't', 'e', 'm'] := by decide
    simp only [gemmaTurns, List.filter_cons]
    cases hu : (gemmaRoleName m.role == "user".toList) with
    | true =>
      have hu' : (m.role == "user".toList) = true := by
        rw [← gemmaRoleName_user, hu]
      have hmr : m.role = ['u', 's', 'e', 'r'] := (beq_iff_eq.mp hu').trans h0u
      cases flag with
      | false =>
        simp +decide [hu, hmr, gemmaRoleName, specGemmaBody, gemmaTurnSpec, ih,
          List.append_assoc]
      | true =>
        simp +decide [hu, hmr, gemmaRoleName, gemmaTurnSpec, ih,
          List.append_assoc]
    | false =>
      have hu' : (m.role == "user".toList) = false := by
        rw [← gemmaRoleName_user, hu]
      cases hs : (gemmaRoleName m.role == "system".toList) with
      | true =>
        have hs' : (m.role == "system".toList) = true := by
          rw [← gemmaRoleName_system, hs]
        have hsys : m.role = ['s', 'y', 's', 't', 'e', 'm'] :=
          (beq_iff_eq.mp hs').trans h0s
        cases flag with
        | false => simp +decide [hu, hs, hsys, ih]
        | true => simp +decide [hu, hs, hsys, ih]
      | false =>
        have hs' : (m.role == "system".toList) = false := by
          rw [← gemmaRoleName_system, hs]
        have hmrBn : (m.role == ['u', 's', 'e', 'r']) = false := h0u ▸ hu'
        have hsysBn : (m.role == ['s', 'y', 's', 't', 'e', 'm']) = false :=
          h0s ▸ hs'
        have hsysPn : ¬ m.role = ['s', 'y', 's', 't', 'e', 'm'] := by
          intro hh
          rw [hh] at hsysBn
          simp at hsysBn
        cases flag with
        | false =>
          simp [hu, hs, hmrBn, hsysBn, hsysPn, ih, specGemmaBody, gemmaTurnSpec,
            List.append_assoc]
        | true =>
          simp [hu, hs, hmrBn, hsysBn, hsysPn, ih, gemmaTurnSpec,
            List.append_assoc]

/-- On a history without user messages the spec rendering is the plain
rendering. -/
theorem specGemmaBody_no_user (sys : List Char) :
    ∀ l, l.any (fun m => m.role == "user".toList) = false →
      specGemmaBody sys l
        = (l.map (fun x => gemmaTurnSpec (gemmaRoleName x.role) x.content)).flatten := by
  intro l
  induction l with
  | nil => intro _; rfl
  | cons m rest ih =>
    intro h
    simp only [List.any_cons, Bool.or_eq_false_iff] at h
    obtain ⟨h1, h2⟩ := h
    have h0u : ("user".toList : List Char) = ['u', 's', 'e', 'r'] := by decide
    have h1L : (m.role == ['u', 's', 'e', 'r']) = false := h0u ▸ h1
    have h1P : ¬ m.role = ['u', 's', 'e', 'r'] := by
      intro hh
      rw [hh] at h1L
      simp at h1L
    simp [specGemmaBody, h1, h1L, h1P, ih h2]

/-- Filtering out the system messages does not change whether a user
message exists. -/
theorem filter_system_any_user (l : List Message) :
    ((l.filter (fun m => !(m.role == "system".toList))).any
        (fun m => m.role == "user".toList))
      = l.any (fun m => m.role == "user".toList) := by
  rw [List.any_filter]
  have hpt : ∀ a : Message,
      (!(a.role == "system".toList) && (a.role == "user".toList))
        = (a.role == "user".toList) := by
    intro a
    cases hu : (a.role == "user".toList) with
    | true =>
      rw [beq_iff_eq] at hu
      rw [hu]
      decide
    | false => simp
  simp only [hpt]

/-- The code Gemma formatter and the spec-side Gemma formatter agree. -/
theorem buildGemmaPrompt_eq_spec (messages : List Message)
    (options : PromptOptions) :
    buildGemmaPrompt messages options = gemmaPromptSpec messages options := by
  simp only [buildGemmaPrompt, gemmaPromptSpec, gemmaTurns_snd, gemmaTurns_fst,
    Bool.false_or, filter_system_any_user]
  cases hany : (recentWindow (options.maxMessages.getD chatHistoryMaxMessages)
      messages).any (fun m => m.role == "user".toList) with
  | true => simp
  | false =>
    have hkept := filter_system_any_user
      (recentWindow (options.maxMessages.getD chatHistoryMaxMessages) messages)
    rw [hany] at hkept
    rw [specGemmaBody_no_user _ _ hkept]
    simp [gemmaTurnSpec, sotUserLit, List.append_assoc]

/-- C6: with the Gemma template selected, `buildPrompt` produces exactly the
prompt the specification describes (assistant remapped to model, system
messages dropped, system prompt injected into the first user turn or a
synthesized user turn), and the result ends with the open
`<start_of_turn>model\n` turn. -/
theorem c6_gemma_matches_spec (messages : List Message) (options : PromptOptions)
    (h : options.chatTemplate = some ChatTemplate.gemma) :
    buildPrompt messages options = gemmaPromptSpec messages options ∧
    ∃ pre, buildPrompt messages options
        = pre ++ "<start_of_turn>model\n".toList := by
  have hb : buildPrompt messages options = buildGemmaPrompt messages options := by
    unfold buildPrompt
    rw [h]
    rfl
  refine ⟨hb.trans (buildGemmaPrompt_eq_spec messages options), ?_⟩
  rw [hb]
  unfold buildGemmaPrompt
  exact ⟨_, rfl⟩

/-- Witness for C6 at a concrete history and options record. -/
theorem c6_gemma_matches_spec_witness :
    buildPrompt [⟨"assistant".toList, "A".toList⟩, ⟨"user".toList, "Hi".toList⟩]
        ⟨none, some "SYS".toList, some ChatTemplate.gemma⟩
      = gemmaPromptSpec [⟨"assistant".toList, "A".toList⟩, ⟨"user".toList, "Hi".toList⟩]
          ⟨none, some "SYS".toList, some ChatTemplate.gemma⟩ ∧
    ∃ pre, buildPrompt [⟨"assistant".toList, "A".toList⟩, ⟨"user".toList, "Hi".toList⟩]
        ⟨none, some "SYS".toList, some ChatTemplate.gemma⟩
      = pre ++ "<start_of_turn>model\n".toList :=
  c6_gemma_matches_spec _ _ rfl

/-! ## Streaming monotonicity of the thinking parser (claim C1) -/

/-- A case-insensitive prefix match survives appending on the right. -/
theorem startsWithCI_append {pat l : List Char} (t : List Char)
    (h : startsWithCI pat l = true) : startsWithCI pat (l ++ t) = true := by
  induction pat generalizing l with
  | nil => rfl
  | cons p ps ih =>
    cases l with
    | nil => simp [startsWithCI] at h
    | cons c cs =>
      simp only [List.cons_append, startsWithCI, Bool.and_eq_true] at h ⊢
      exact ⟨h.1, ih h.2⟩

/-- A case-insensitive prefix match needs at least `pat.length`
characters. -/
theorem startsWithCI_length {pat l : List Char}
    (h : startsWithCI pat l = true) : pat.length ≤ l.length := by
  induction pat generalizing l with
  | nil => simp
  | cons p ps ih =>
    cases l with
    | nil => simp [startsWithCI] at h
    | cons c cs =>
      simp only [startsWithCI, Bool.and_eq_true] at h
      have := ih h.2
      simp only [List.length_cons]
      omega

/-- When the text is at least as long as the pattern, appending does not
change whether the pattern matches at the front. -/
theorem startsWithCI_stable {pat l : List Char} (t : List Char)
    (hlen : pat.length ≤ l.length) :
    startsWithCI pat (l ++ t) = startsWithCI pat l := by
  induction pat generalizing l with
  | nil => rfl
  | cons p ps ih =>
    cases l with
    | nil => simp at hlen
    | cons c cs =>
      have hl : ps.length ≤ cs.length := by
        simp only [List.length_cons] at hlen
        omega
      simp only [List.cons_append, List.append_eq, startsWithCI]
      rw [ih hl]

/-- A prefix of a matching pattern matches the corresponding prefix of the
text. -/
theorem startsWithCI_take {pat l : List Char} (n : Nat)
    (h : startsWithCI pat l = true) :
    startsWithCI (pat.take n) (l.take n) = true := by
  induction pat generalizing l n with
  | nil => simp [startsWithCI]
  | cons p ps ih =>
    cases l with
    | nil => simp [startsWithCI] at h
    | cons c cs =>
      cases n with
      | zero => simp [startsWithCI]
      | succ m =>
        simp only [List.take_succ_cons, startsWithCI, Bool.and_eq_true] at h ⊢
        exact ⟨h.1, ih m h.2⟩

/-- The position `findCI` reports carries a match. -/
theorem findCI_some {pat r : List Char} {j : Nat}
    (h : findCI pat r = some j) : startsWithCI pat (r.drop j) = true := by
  induction r generalizing j with
  | nil =>
    simp only [findCI] at h
    split at h
    · rename_i hs
      injection h with hh
      subst hh
      simpa using hs
    · exact absurd h (by simp)
  | cons c cs ih =>
    simp only [findCI] at h
    split at h
    · rename_i hs
      injection h with hh
      subst hh
      simpa using hs
    · simp only [Option.map_eq_some'] at h
      obtain ⟨j', hj', rfl⟩ := h
      simpa using ih hj'

/-- A reported occurrence of a non-empty pattern fits inside the text. -/
theorem findCI_bound {pat r : List Char} {j : Nat} (hne : pat ≠ [])
    (h : findCI pat r = some j) : j + pat.length ≤ r.length := by
  have hs := findCI_some h
  have hlen := startsWithCI_length hs
  rw [List.length_drop] at hlen
  by_cases hj : j ≤ r.length
  · cases pat with
    | nil => exact absurd rfl hne
    | cons p ps => simp only [List.length_cons] at hlen ⊢; omega
  · have hnil : r.drop j = [] := List.drop_eq_nil_of_le (by omega)
    rw [hnil] at hs
    cases pat with
    | nil => exact absurd rfl hne
    | cons p ps => simp [startsWithCI] at hs

/-- When `findCI` fails there is no occurrence at any position. -/
theorem findCI_none {pat r : List Char} (h : findCI pat r = none) (i : Nat) :
    startsWithCI pat (r.drop i) = false := by
  induction r generalizing i with
  | nil =>
    simp only [findCI] at h
    split at h
    · exact absurd h (by simp)
    · rename_i hs
      simpa using Bool.eq_false_iff.mpr hs
  | cons c cs ih =>
    simp only [findCI] at h
    split at h
    · exact absurd h (by simp)
    · rename_i hs
      simp only [Option.map_eq_none'] at h
      cases i with
      | zero => simpa using Bool.eq_false_iff.mpr hs
      | succ i' => simpa using ih h i'

/-- The first occurrence inside `r` is also the first occurrence in any
extension of `r`. -/
theorem findCI_append {pat r : List Char} {j : Nat} (t : List Char)
    (hne : pat ≠ []) (h : findCI pat r = some j) :
    findCI pat (r ++ t) = some j := by
  induction r generalizing j with
  | nil =>
    simp only [findCI] at h
    split at h
    · rename_i hs
      have := startsWithCI_length hs
      cases pat with
      | nil => exact absurd rfl hne
      | cons p ps => simp at this
    · exact absurd h (by simp)
  | cons c cs ih =>
    simp only [findCI] at h
    split at h
    · rename_i hs
      injection h with hh
      subst hh
      have hsw : startsWithCI pat (c :: (cs ++ t)) = true := by
        have := startsWithCI_append t hs
        rwa [List.cons_append] at this
      simp only [List.cons_append, List.append_eq, findCI]
      rw [if_pos hsw]
    · rename_i hs
      simp only [Option.map_eq_some'] at h
      obtain ⟨j', hj', rfl⟩ := h
      have hbound := findCI_bound hne hj'
      have hsw : startsWithCI pat (c :: (cs ++ t)) = false := by
        have hst : startsWithCI pat ((c :: cs) ++ t) = startsWithCI pat (c :: cs) :=
          startsWithCI_stable t (by simp only [List.length_cons]; omega)
        rw [List.cons_append] at hst
        rw [hst]
        exact Bool.eq_false_iff.mpr hs
      simp only [List.cons_append, List.append_eq, findCI]
      rw [if_neg (by simp [hsw]), ih hj']
      rfl

/-- The length of the opening delimiter. -/
theorem thinkOpen_length : thinkOpen.length = 7 := by decide

/-- With no occurrence inside `r` and no dangling partial opener at the end
of `r`, every occurrence of the opening delimiter in `r ++ t` starts at or
after the end of `r`. -/
theorem findCI_append_after {r t : List Char} {j : Nat}
    (hnone : findCI thinkOpen r = none)
    (hd : danglingThinkOpen r = false)
    (h : findCI thinkOpen (r ++ t) = some j) : r.length ≤ j := by
  by_contra hlt
  push_neg at hlt
  have hs := findCI_some h
  have hdrop : (r ++ t).drop j = r.drop j ++ t := by
    rw [List.drop_append_eq_append_drop, Nat.sub_eq_zero_of_le (by omega),
      List.drop_zero]
  by_cases hfit : j + 7 ≤ r.length
  · rw [hdrop] at hs
    have hin : startsWithCI thinkOpen (r.drop j) = true := by
      rw [← startsWithCI_stable t
        (by rw [thinkOpen_length, List.length_drop]; omega)]
      exact hs
    rw [findCI_none hnone j] at hin
    exact absurd hin (by simp)
  · have hL1 : 1 ≤ r.length - j := by omega
    have hL6 : r.length - j ≤ 6 := by omega
    have htake := startsWithCI_take (r.length - j) hs
    rw [hdrop] at htake
    have hlen : (r.drop j).length = r.length - j := List.length_drop j r
    have htk : (r.drop j ++ t).take (r.length - j) = r.drop j := by
      rw [List.take_append_eq_append_take, ← hlen, List.take_length,
        Nat.sub_self, List.take_zero, List.append_nil]
    rw [htk] at htake
    have hcs : ciSuffix (thinkOpen.take (r.length - j)) r = true := by
      unfold ciSuffix
      have hlt7 : (thinkOpen.take (r.length - j)).length = r.length - j := by
        rw [List.length_take, thinkOpen_length, inf_eq_min]
        omega
      rw [hlt7]
      have hjj : r.length - (r.length - j) = j := by omega
      rw [hjj]
      simp only [Bool.and_eq_true, decide_eq_true_eq]
      exact ⟨by omega, htake⟩
    rw [Bool.eq_false_iff] at hd
    apply hd
    unfold danglingThinkOpen
    rw [List.any_eq_true]
    refine ⟨r.length - j - 1, List.mem_range.mpr (by omega), ?_⟩
    have : r.length - j - 1 + 1 = r.length - j := by omega
    rw [this]
    exact hcs

/-- Dropping characters from the front cannot create a dangling opener. -/
theorem danglingThinkOpen_drop {r : List Char} (m : Nat)
    (hd : danglingThinkOpen r = false) :
    danglingThinkOpen (r.drop m) = false := by
  rw [Bool.eq_false_iff] at hd ⊢
  intro hany
  apply hd
  unfold danglingThinkOpen at hany ⊢
  rw [List.any_eq_true] at hany ⊢
  obtain ⟨n, hn, hci⟩ := hany
  refine ⟨n, hn, ?_⟩
  unfold ciSuffix at hci ⊢
  simp only [Bool.and_eq_true, decide_eq_true_eq] at hci ⊢
  obtain ⟨hlen, hsw⟩ := hci
  rw [List.length_drop] at hlen hsw
  rw [List.drop_drop] at hsw
  have hx : 1 ≤ (thinkOpen.take (n + 1)).length := by
    rw [List.length_take, thinkOpen_length, inf_eq_min]
    omega
  have harith : m + (r.length - m - (thinkOpen.take (n + 1)).length)
      = r.length - (thinkOpen.take (n + 1)).length := by omega
  rw [harith] at hsw
  exact ⟨by omega, hsw⟩

/-- Prefixes are preserved by appending the same list on the left. -/
theorem isPre_append_left {a b : List Char} (c : List Char) (h : a <+: b) :
    c ++ a <+: c ++ b := by
  obtain ⟨s, rfl⟩ := h
  exact ⟨s, by rw [List.append_assoc]⟩

/-- The length of the closing delimiter. -/
theorem thinkClose_length : thinkClose.length = 8 := by decide

/-- Core monotonicity: the main-response text the parse loop accumulates on
`r` is a prefix of the text it accumulates on `r ++ t`, provided `r` does
not end in the middle of an opening delimiter. -/
theorem thinkLoop_main_mono :
    ∀ fuel fuel' (r t : List Char),
      r.length ≤ fuel → (r ++ t).length ≤ fuel' →
      danglingThinkOpen r = false →
      (thinkLoop fuel r).1 <+: (thinkLoop fuel' (r ++ t)).1 := by
  intro fuel
  induction fuel with
  | zero =>
    intro fuel' r t hf _ _
    have hr : r = [] := List.eq_nil_of_length_eq_zero (by omega)
    subst hr
    exact List.nil_prefix
  | succ n ih =>
    intro fuel' r t hf hf' hd
    cases ho : findCI thinkOpen r with
    | none =>
      have hL : (thinkLoop (n + 1) r).1 = r := by simp [thinkLoop, ho]
      rw [hL]
      cases hrt : findCI thinkOpen (r ++ t) with
      | none =>
        have hR : (thinkLoop fuel' (r ++ t)).1 = r ++ t := by
          cases fuel' with
          | zero => rfl
          | succ m => simp [thinkLoop, hrt]
        rw [hR]
        exact List.prefix_append r t
      | some j =>
        have hj : r.length ≤ j := findCI_append_after ho hd hrt
        have hjb : j + 7 ≤ (r ++ t).length := by
          have := findCI_bound (by decide) hrt
          rwa [thinkOpen_length] at this
        cases fuel' with
        | zero => omega
        | succ m =>
          have htk : (r ++ t).take j = r ++ t.take (j - r.length) := by
            rw [List.take_append_eq_append_take, List.take_of_length_le hj]
          cases hc : findCI thinkClose ((r ++ t).drop (j + 7)) with
          | none =>
            have hR : (thinkLoop (m + 1) (r ++ t)).1 = (r ++ t).take j := by
              simp [thinkLoop, hrt, hc]
            rw [hR, htk]
            exact List.prefix_append r _
          | some k =>
            have hR : (thinkLoop (m + 1) (r ++ t)).1
                = (r ++ t).take j
                  ++ (thinkLoop m (((r ++ t).drop (j + 7)).drop (k + 8))).1 := by
              simp [thinkLoop, hrt, hc]
            rw [hR, htk, List.append_assoc]
            exact List.prefix_append r _
    | some j =>
      have hopen_ne : (thinkOpen : List Char) ≠ [] := by decide
      have hclose_ne : (thinkClose : List Char) ≠ [] := by decide
      have hjb : j + 7 ≤ r.length := by
        have := findCI_bound hopen_ne ho
        rwa [thinkOpen_length] at this
      have hrt : findCI thinkOpen (r ++ t) = some j :=
        findCI_append t hopen_ne ho
      have hdrop7 : (r ++ t).drop (j + 7) = r.drop (j + 7) ++ t := by
        rw [List.drop_append_eq_append_drop, Nat.sub_eq_zero_of_le hjb,
          List.drop_zero]
      have htkj : (r ++ t).take j = r.take j := by
        rw [List.take_append_eq_append_take, Nat.sub_eq_zero_of_le (by omega),
          List.take_zero, List.append_nil]
      have hlenrt : (r ++ t).length = r.length + t.length := List.length_append r t
      cases fuel' with
      | zero => omega
      | succ m =>
        cases hc : findCI thinkClose (r.drop (j + 7)) with
        | none =>
          have hL : (thinkLoop (n + 1) r).1 = r.take j := by
            simp [thinkLoop, ho, hc]
          rw [hL]
          cases hc' : findCI thinkClose ((r ++ t).drop (j + 7)) with
          | none =>
            have hR : (thinkLoop (m + 1) (r ++ t)).1 = (r ++ t).take j := by
              simp [thinkLoop, hrt, hc']
            rw [hR, htkj]
          | some k =>
            have hR : (thinkLoop (m + 1) (r ++ t)).1
                = (r ++ t).take j
                  ++ (thinkLoop m (((r ++ t).drop (j + 7)).drop (k + 8))).1 := by
              simp [thinkLoop, hrt, hc']
            rw [hR, htkj]
            exact List.prefix_append _ _
        | some k =>
          have hkb : k + 8 ≤ (r.drop (j + 7)).length := by
            have := findCI_bound hclose_ne hc
            rwa [thinkClose_length] at this
          have hc' : findCI thinkClose ((r ++ t).drop (j + 7)) = some k := by
            rw [hdrop7]
            exact findCI_append t hclose_ne hc
          have hrest : ((r ++ t).drop (j + 7)).drop (k + 8)
              = (r.drop (j + 7)).drop (k + 8) ++ t := by
            rw [hdrop7, List.drop_append_eq_append_drop,
              Nat.sub_eq_zero_of_le hkb, List.drop_zero]
          have hL : (thinkLoop (n + 1) r).1
              = r.take j ++ (thinkLoop n ((r.drop (j + 7)).drop (k + 8))).1 := by
            simp [thinkLoop, ho, hc]
          have hR : (thinkLoop (m + 1) (r ++ t)).1
              = (r ++ t).take j
                ++ (thinkLoop m (((r ++ t).drop (j + 7)).drop (k + 8))).1 := by
            simp [thinkLoop, hrt, hc']
          rw [hL, hR, htkj, hrest]
          apply isPre_append_left
          have hlen1 : (r.drop (j + 7)).length = r.length - (j + 7) :=
            List.length_drop _ _
          have hlen2 : ((r.drop (j + 7)).drop (k + 8)).length
              = (r.drop (j + 7)).length - (k + 8) := List.length_drop _ _
          apply ih
          · omega
          · rw [List.length_append]
            omega
          · have hdd : (r.drop (j + 7)).drop (k + 8)
                = r.drop ((j + 7) + (k + 8)) := List.drop_drop _ _ _
            rw [hdd]
            exact danglingThinkOpen_drop _ hd

/-- `jsTrim` maps prefixes to prefixes. -/
theorem jsTrim_prefix {a b : List Char} (h : a <+: b) :
    jsTrim a <+: jsTrim b := by
  obtain ⟨c, rfl⟩ := h
  unfold jsTrim
  rw [List.dropWhile_append]
  by_cases he : (a.dropWhile jsWs).isEmpty = true
  · rw [if_pos he]
    have ha : a.dropWhile jsWs = [] := by rwa [List.isEmpty_iff] at he
    rw [ha]
    simp only [List.reverse_nil, List.dropWhile_nil]
    exact List.nil_prefix
  · rw [if_neg he]
    rw [List.reverse_append]
    rw [List.dropWhile_append]
    by_cases hc : ((c.reverse).dropWhile jsWs).isEmpty = true
    · rw [if_pos hc]
    · rw [if_neg hc]
      rw [List.reverse_append, List.reverse_reverse]
      have h1 : ((a.dropWhile jsWs).reverse.dropWhile jsWs).reverse
          <+: a.dropWhile jsWs := by
        have hs : (a.dropWhile jsWs).reverse.dropWhile jsWs
            <:+ (a.dropWhile jsWs).reverse := List.dropWhile_suffix _
        have h2 := List.reverse_prefix.mpr hs
        rwa [List.reverse_reverse] at h2
      exact h1.trans (List.prefix_append _ _)

/-- C1 (amended): re-parsing an extension retracts no previously emitted
main-response text, for every prefix that does not end inside a partially
streamed opening delimiter; the counterexample shows the guard is needed. -/
theorem c1_amended (p t : List Char)
    (hd : danglingThinkOpen p = false)
    (hne : (parseThinkingResponse p).mainResponse ≠ []) :
    (parseThinkingResponse p).mainResponse
      <+: (parseThinkingResponse (p ++ t)).mainResponse := by
  show jsTrim (thinkLoop p.length p).1
      <+: jsTrim (thinkLoop (p ++ t).length (p ++ t)).1
  exact jsTrim_prefix (thinkLoop_main_mono p.length (p ++ t).length p t
    (le_refl _) (le_refl _) hd)

/-- Witness for C1 (amended) at a concrete prefix and continuation. -/
theorem c1_amended_witness :
    (parseThinkingResponse "a".toList).mainResponse
      <+: (parseThinkingResponse ("a".toList ++ "<think>b".toList)).mainResponse :=
  c1_amended "a".toList "<think>b".toList (by decide) (by decide)

end LocalAI
